import Mathlib

/-!
Verification of the Black Arm CAN protocol/translation layer.

The Go source is embedded shallowly:
* machine integers (`uint8`, `uint16`, `uint32`) become `Nat` with explicit
  bounds / `% 2 ^ w` truncation where the code truncates;
* `float32` values flow through the codec as their raw IEEE-754 bit
  patterns (the code converts with `math.Float32bits` / `Float32frombits`,
  a pure bit reinterpretation, so a `Nat < 2^32` models it exactly);
* the HTTP transport is abstracted as the list of decoded-relevant
  messages a poll loop observes before its deadline, and as a
  per-motor send-success predicate;
* Go byte slices become `List Nat` of byte values.
-/

/-! ## Frame model (`CANMessage` in `main.go`) -/

/-- Mirror of the Go `CANMessage` struct: interface tag, 32-bit identifier,
data bytes, extended-format flag. -/
structure CANMessage where
  iface : String
  id : Nat
  data : List Nat
  extended : Bool
deriving DecidableEq

/-! ## Payload codec

The write path (`SetAngle`, `SetSpeed`, the four gain setters) builds the
8 data bytes as `{index low byte, index high byte, 0, 0}` followed by the
little-endian bytes of the float32 bit pattern (Go
`binary.LittleEndian.PutUint32`).  The read-back path
(`listenOneMotorRound` / `listenMotorParams`) decodes bytes 0-1 as the
little-endian register index and bytes 4-7 as the little-endian float32
bit pattern. -/

/-- Little-endian byte split of a 32-bit value, as
`binary.LittleEndian.PutUint32` produces it: `b[0]=byte(v)`,
`b[1]=byte(v>>8)`, `b[2]=byte(v>>16)`, `b[3]=byte(v>>24)`. -/
def le32 (u : Nat) : List Nat :=
  [u % 256, (u >>> 8) % 256, (u >>> 16) % 256, (u >>> 24) % 256]

/-- The 8-byte write payload for register `index` carrying bit pattern
`bits`; `SetAngle` instantiates it at index `0x7016` (its literal bytes
`{0x16, 0x70, 0, 0}`), `SetSpeed` at `0x7024`, the gain setters at
`0x701E`/`0x701F`/`0x7020`/`0x7021`. -/
def encodePayload (index bits : Nat) : List Nat :=
  [index % 256, (index >>> 8) % 256, 0, 0] ++ le32 bits

/-- Decode of bytes 0-1 in `listenOneMotorRound`:
`uint16(b0) | uint16(b1)<<8`. -/
def decodeIndex (bytes : List Nat) : Nat :=
  bytes.getD 0 0 ||| (bytes.getD 1 0 <<< 8)

/-- Decode of bytes 4-7 in `listenOneMotorRound`:
`uint32(b4) | uint32(b5)<<8 | uint32(b6)<<16 | uint32(b7)<<24`. -/
def decodeValueBits (bytes : List Nat) : Nat :=
  bytes.getD 4 0 ||| (bytes.getD 5 0 <<< 8) ||| (bytes.getD 6 0 <<< 16) |||
    (bytes.getD 7 0 <<< 24)

/-- The `loc_ref` (target angle) register index, `idxLocRef` in the source. -/
def idxLocRef : Nat := 0x7016

/-- The position-gain register index, `idxLocKp` in the source. -/
def idxLocKp : Nat := 0x701E

/-- The velocity-gain register index, `idxSpdKp` in the source. -/
def idxSpdKp : Nat := 0x701F

/-- The velocity-integral-gain register index, `idxSpdKi` in the source. -/
def idxSpdKi : Nat := 0x7020

/-- Data bytes of `SetAngle`: `{0x16, 0x70, 0, 0}` ++ little-endian float bits. -/
def setAngleData (bits : Nat) : List Nat :=
  [0x16, 0x70, 0x00, 0x00] ++ le32 bits

/-- Frame built by `SetAngle`: identifier `0x1200FD00 + jointID`, extended. -/
def setAngleCommand (iface : String) (jointID bits : Nat) : CANMessage :=
  ⟨iface, 0x1200FD00 + jointID, setAngleData bits, true⟩

/-- Data bytes of `SetSpeed`: `{0x24, 0x70, 0, 0}` ++ little-endian float bits. -/
def setSpeedData (bits : Nat) : List Nat :=
  [0x24, 0x70, 0x00, 0x00] ++ le32 bits

/-- Payload of `SetAngle` is the generic write payload at index `0x7016`. -/
theorem setAngleData_eq_encodePayload (bits : Nat) :
    setAngleData bits = encodePayload idxLocRef bits := rfl

/-- Payload of `SetSpeed` is the generic write payload at index `0x7024`. -/
theorem setSpeedData_eq_encodePayload (bits : Nat) :
    setSpeedData bits = encodePayload 0x7024 bits := rfl

/-! Bridging Go's `|` on disjoint byte fields to addition. -/

theorem lor_shiftLeft_eq_add {a : Nat} (b k : Nat) (ha : a < 2 ^ k) :
    a ||| (b <<< k) = 2 ^ k * b + a := by
  rw [Nat.lor_comm, Nat.shiftLeft_eq, Nat.mul_comm b (2 ^ k)]
  exact (Nat.mul_add_lt_is_or ha b).symm

/-- C1: encoding a 16-bit register index and a 32-bit float bit pattern into
a write payload (index little-endian in bytes 0-1, float bits little-endian
in bytes 4-7) and decoding that payload back (bytes 0-1 as the index,
bytes 4-7 as the raw IEEE-754 bits) returns exactly the original index and
the original bit pattern, for every index and every bit pattern including
NaN and subnormal encodings. -/
theorem encode_decode_roundtrip (index bits : Nat)
    (hidx : index < 2 ^ 16) (hbits : bits < 2 ^ 32) :
    decodeIndex (encodePayload index bits) = index ∧
      decodeValueBits (encodePayload index bits) = bits := by
  have hi : decodeIndex (encodePayload index bits)
      = index % 256 ||| (((index >>> 8) % 256) <<< 8) := rfl
  have hv : decodeValueBits (encodePayload index bits)
      = bits % 256 ||| (((bits >>> 8) % 256) <<< 8) ||| (((bits >>> 16) % 256) <<< 16) |||
        (((bits >>> 24) % 256) <<< 24) := rfl
  constructor
  · rw [hi, lor_shiftLeft_eq_add ((index >>> 8) % 256) 8
      (show index % 256 < 2 ^ 8 by omega), Nat.shiftRight_eq_div_pow]
    omega
  · rw [hv, lor_shiftLeft_eq_add ((bits >>> 8) % 256) 8
      (show bits % 256 < 2 ^ 8 by omega)]
    rw [lor_shiftLeft_eq_add ((bits >>> 16) % 256) 16
      (show 2 ^ 8 * ((bits >>> 8) % 256) + bits % 256 < 2 ^ 16 by omega)]
    rw [lor_shiftLeft_eq_add ((bits >>> 24) % 256) 24
      (show 2 ^ 16 * ((bits >>> 16) % 256) + (2 ^ 8 * ((bits >>> 8) % 256) + bits % 256)
        < 2 ^ 24 by omega)]
    rw [Nat.shiftRight_eq_div_pow, Nat.shiftRight_eq_div_pow,
      Nat.shiftRight_eq_div_pow]
    omega

/-- Round-trip witness at the target-angle index and the quiet-NaN bit
pattern `0x7FC00000`. -/
theorem encode_decode_roundtrip_witness :
    idxLocRef < 2 ^ 16 ∧ 0x7FC00000 < 2 ^ 32 ∧
      (decodeIndex (encodePayload idxLocRef 0x7FC00000) = idxLocRef ∧
        decodeValueBits (encodePayload idxLocRef 0x7FC00000) = 0x7FC00000) :=
  ⟨by norm_num [idxLocRef], by norm_num,
    encode_decode_roundtrip idxLocRef 0x7FC00000 (by norm_num [idxLocRef])
      (by norm_num)⟩

/-! ## Command frames (dispatcher write path in `main.go`)

Each builder mirrors one literal `CANMessage` construction in the Go
source; the identifier is `commandByte<<24 | 0xFD00 | motorID`, written in
the source as the literal `0xWW00FD00 + motorID`. -/

/-- First frame of `enableSingleMotor`: set mode PP, id `0x1200FD00 + motorID`,
data `{0x05, 0x70, 0, 0, 0x01, 0, 0, 0}`. -/
def setModeCommand (iface : String) (motorID : Nat) : CANMessage :=
  ⟨iface, 0x1200FD00 + motorID, [0x05, 0x70, 0x00, 0x00, 0x01, 0x00, 0x00, 0x00], true⟩

/-- Second frame of `enableSingleMotor`: drive enable, id `0x0300FD00 + motorID`,
all-zero data. -/
def enableCommand (iface : String) (motorID : Nat) : CANMessage :=
  ⟨iface, 0x0300FD00 + motorID, [0x00, 0x00, 0x00, 0x00, 0x00, 0x00, 0x00, 0x00], true⟩

/-- Per-motor frame of `DisableMotor`: id `0x0400FD00 + motorID`, all-zero data. -/
def disableCommand (iface : String) (motorID : Nat) : CANMessage :=
  ⟨iface, 0x0400FD00 + motorID, [0x00, 0x00, 0x00, 0x00, 0x00, 0x00, 0x00, 0x00], true⟩

/-- Frame built by `setSingleMotorZero`: id `0x0600FD00 + motorID`,
data `{0x01, 0, 0, 0, 0, 0, 0, 0}`. -/
def setZeroCommand (iface : String) (motorID : Nat) : CANMessage :=
  ⟨iface, 0x0600FD00 + motorID, [0x01, 0x00, 0x00, 0x00, 0x00, 0x00, 0x00, 0x00], true⟩

/-- Per-motor frame of `CleanError`: id `0x0400FD00 + motorID`,
data `{0x01, 0, 0, 0, 0, 0, 0, 0}`. -/
def cleanErrorCommand (iface : String) (motorID : Nat) : CANMessage :=
  ⟨iface, 0x0400FD00 + motorID, [0x01, 0x00, 0x00, 0x00, 0x00, 0x00, 0x00, 0x00], true⟩

/-- C5 counterexample: the set-zero frame does not carry all-zero data —
its data byte 0 is `0x01` (`setSingleMotorZero` in the source); moreover
disable and clear-fault share the leading command byte `0x04` and are
told apart by data byte 0, not by the identifier alone. -/
theorem valueless_frames_not_all_zero :
    (setZeroCommand "can0" 51).data ≠ List.replicate 8 0 ∧
      (cleanErrorCommand "can0" 51).data ≠ List.replicate 8 0 ∧
      (disableCommand "can0" 51).id = (cleanErrorCommand "can0" 51).id ∧
      (disableCommand "can0" 51).data ≠ (cleanErrorCommand "can0" 51).data := by
  refine ⟨by decide, by decide, rfl, by decide⟩

/-- C5 amended: enable and disable frames carry all-zero data; set-zero and
clear-fault frames carry `0x01` in data byte 0 and zeros elsewhere; disable
and clear-fault share the leading command byte `0x04` (identifier
`0x0400FD00 + motorID`) and are distinguished solely by data byte 0. -/
theorem valueless_frames_data (iface : String) (m : Nat) :
    (enableCommand iface m).data = List.replicate 8 0 ∧
      (disableCommand iface m).data = List.replicate 8 0 ∧
      (setZeroCommand iface m).data = 0x01 :: List.replicate 7 0 ∧
      (cleanErrorCommand iface m).data = 0x01 :: List.replicate 7 0 ∧
      (disableCommand iface m).id = (cleanErrorCommand iface m).id ∧
      (disableCommand iface m).data ≠ (cleanErrorCommand iface m).data :=
  ⟨rfl, rfl, rfl, rfl, rfl, by simp [disableCommand, cleanErrorCommand]⟩

/-! ## Dispatcher (`SetAngle` / `SetAngles`) -/

/-- The error taxonomy relevant to the dispatcher: invalid address
(pre-bus), payload/arity mismatch (pre-bus). -/
inductive ArmError where
  | addressError
  | encodingError
deriving DecidableEq

/-- Go `isValidJoint`: linear scan of the controller's motor-id list. -/
def isValidJoint (motorIDs : List Nat) (jointID : Nat) : Bool :=
  motorIDs.contains jointID

/-- Go `SetAngle`: reject an id outside the manipulator, otherwise build (and
send) the angle write frame.  The transport is abstracted away; the built
frame is returned so callers can observe what would be sent. -/
def setAngle (iface : String) (motorIDs : List Nat) (jointID bits : Nat) :
    Except ArmError CANMessage :=
  if isValidJoint motorIDs jointID then
    Except.ok (setAngleCommand iface jointID bits)
  else
    Except.error ArmError.addressError

/-- Go `SetAngles`: check the supplied-angle count against the motor count
before anything is dispatched; on match, fan out one `SetAngle` per motor
(the Go code does this concurrently and surfaces the first error).  Returns
the overall result together with the list of frames actually handed to the
transport. -/
def setAngles (iface : String) (motorIDs : List Nat) (angles : List Nat) :
    Except ArmError Unit × List CANMessage :=
  if angles.length ≠ motorIDs.length then
    (Except.error ArmError.encodingError, [])
  else
    let results := (motorIDs.zip angles).map fun p => setAngle iface motorIDs p.1 p.2
    let frames := results.filterMap fun r =>
      match r with
      | Except.ok f => some f
      | Except.error _ => none
    let firstErr := results.findSome? fun r =>
      match r with
      | Except.error e => some e
      | Except.ok _ => none
    (match firstErr with
     | some e => Except.error e
     | none => Except.ok (), frames)

/-- C4: whenever the supplied angle count differs from the motor count,
`setAngles` fails with the arity-mismatch (encoding) error and zero frames
reach the transport — the length check runs before any per-joint dispatch. -/
theorem setAngles_arity_guard (iface : String) (motorIDs : List Nat)
    (angles : List Nat) (h : angles.length ≠ motorIDs.length) :
    setAngles iface motorIDs angles = (Except.error ArmError.encodingError, []) := by
  simp [setAngles, h]

/-- Arity-guard witness: one motor, an empty angle list. -/
theorem setAngles_arity_guard_witness :
    ([] : List Nat).length ≠ ([51] : List Nat).length ∧
      setAngles "can0" [51] [] = (Except.error ArmError.encodingError, []) :=
  ⟨by decide, setAngles_arity_guard "can0" [51] [] (by decide)⟩

/-! ## Read request / response identifiers -/

/-- Command-type byte for a single-register read, `typeReadSingle`. -/
def typeReadSingle : Nat := 0x11

/-- The host id used on the bus, `defaultHostID`. -/
def defaultHostID : Nat := 0xFD

/-- Go `buildReadReqID`: `typeReadSingle<<24 | hostID<<8 | motorID`. -/
def buildReadReqID (hostID motorID : Nat) : Nat :=
  (typeReadSingle <<< 24) ||| (hostID <<< 8) ||| motorID

/-- Go `buildReadRespID`: same layout with hostID and motorID swapped. -/
def buildReadRespID (hostID motorID : Nat) : Nat :=
  (typeReadSingle <<< 24) ||| (motorID <<< 8) ||| hostID

/-- Go `buildReadReqData`: 8 bytes, first two = little-endian register index. -/
def buildReadReqData (index : Nat) : List Nat :=
  [index % 256, (index >>> 8) % 256, 0, 0, 0, 0, 0, 0]

/-- For byte-sized fields the bitwise-or layout of the read identifiers is
plain positional arithmetic. -/
theorem readID_eq_add (x y : Nat) (hx : x < 256) (hy : y < 256) :
    (typeReadSingle <<< 24) ||| (x <<< 8) ||| y
      = 0x11 * 2 ^ 24 + x * 2 ^ 8 + y := by
  rw [Nat.lor_assoc]
  have h1 : (x <<< 8) ||| y = 2 ^ 8 * x + y := by
    rw [Nat.shiftLeft_eq, Nat.mul_comm x (2 ^ 8)]
    exact (Nat.mul_add_lt_is_or (by omega) x).symm
  rw [h1]
  have h2 : (typeReadSingle <<< 24) ||| (2 ^ 8 * x + y)
      = 2 ^ 24 * typeReadSingle + (2 ^ 8 * x + y) := by
    rw [Nat.shiftLeft_eq, Nat.mul_comm typeReadSingle (2 ^ 24)]
    exact (Nat.mul_add_lt_is_or (by omega) typeReadSingle).symm
  rw [h2]
  show 2 ^ 24 * typeReadSingle + (2 ^ 8 * x + y) = 0x11 * 2 ^ 24 + x * 2 ^ 8 + y
  rw [show typeReadSingle = 0x11 from rfl]
  ring

/-- C10: for 8-bit host and motor ids with `h ≠ m` the read-request and
read-response identifiers differ (they swap the host and motor byte
positions, coinciding only when `h = m`), and every angle write frame
exposes the motor id as the low byte of its 32-bit identifier. -/
theorem read_ids_asymmetric (iface : String) (h m bits : Nat)
    (hh : h < 256) (hm : m < 256) (hne : h ≠ m) :
    buildReadReqID h m ≠ buildReadRespID h m ∧
      (setAngleCommand iface m bits).id % 256 = m := by
  constructor
  · intro heq
    rw [buildReadReqID, buildReadRespID, readID_eq_add h m hh hm,
      readID_eq_add m h hm hh] at heq
    omega
  · show (0x1200FD00 + m) % 256 = m
    omega

/-- Identifier-asymmetry witness at host `0xFD`, motor `51`. -/
theorem read_ids_asymmetric_witness :
    (defaultHostID < 256 ∧ 51 < 256 ∧ defaultHostID ≠ 51) ∧
      (buildReadReqID defaultHostID 51 ≠ buildReadRespID defaultHostID 51 ∧
        (setAngleCommand "can0" 51 0).id % 256 = 51) :=
  ⟨⟨by decide, by decide, by decide⟩,
    read_ids_asymmetric "can0" defaultHostID 51 0 (by decide) (by decide) (by decide)⟩

/-! ## Convergence state machine (`listenOneMotorRound`)

Per motor, the Go loop keeps `streamState{seen, prevBits, prevVal,
havePrev, repeats, captured}` and feeds it every decoded `loc_ref`
observation.  `prevVal` is always `Float32frombits(prevBits)`, so the two
fields collapse to the bit pattern here.  The transport is abstracted as
the finite list of observations the loop gets to consume before its
deadline; reaching the end of the list without settling models the
timeout return `(false, 0)`. -/

/-- The per-round convergence state (`streamState` in the source).  The Go
`seen` map is modelled by the list of its keys. -/
structure StreamState where
  seen : List Nat
  prevBits : Nat
  havePrev : Bool
  repeats : Nat
  captured : Bool
deriving DecidableEq

/-- Zero-value initial state, `streamState{seen: make(map[uint32]bool)}`. -/
def initStreamState : StreamState :=
  ⟨[], 0, false, 0, false⟩

/-- Result of feeding one observation: either the loop returns (settled),
tagged with which `return` fired (branch 1 = first-repeat-with-predecessor,
branch 2 = `repeats >= 2`), or it continues with the new state. -/
inductive StepResult where
  | settled (branch : Nat) (bits : Nat)
  | cont (s : StreamState)
deriving DecidableEq

/-- One `loc_ref` observation `u` (a raw 32-bit pattern) through the body
of the repeat-detection `if` in `listenOneMotorRound`. -/
def locRefStep (s : StreamState) (u : Nat) : StepResult :=
  if s.seen.contains u then
    let s1 : StreamState := { s with repeats := s.repeats + 1 }
    if !s1.captured && s1.havePrev then
      StepResult.settled 1 s1.prevBits
    else if s1.repeats ≥ 2 then
      StepResult.settled 2 s1.prevBits
    else
      StepResult.cont s1
  else
    StepResult.cont { s with seen := u :: s.seen, prevBits := u, havePrev := true }

/-- Run the machine over a stream of raw `loc_ref` values; on settling,
report the branch, the settled bit pattern and the unconsumed rest of the
stream; `none` models deadline expiry. -/
def locRefRun : StreamState → List Nat → Option (Nat × Nat × List Nat)
  | _, [] => none
  | s, u :: rest =>
    match locRefStep s u with
    | StepResult.settled br bits => some (br, bits, rest)
    | StepResult.cont s1 => locRefRun s1 rest

/-- C2: on the observation stream `[A, A, B, B]` the engine settles with
value `A` immediately upon consuming the second `A`, leaving both `B`
observations unconsumed. -/
theorem convergence_first_repeat (A B : Nat) (_hAB : A ≠ B) :
    locRefRun initStreamState [A, A, B, B] = some (1, A, [B, B]) := by
  simp [locRefRun, locRefStep, initStreamState]

/-- Convergence witness at `A = 5`, `B = 6`. -/
theorem convergence_first_repeat_witness :
    (5 : Nat) ≠ 6 ∧ locRefRun initStreamState [5, 5, 6, 6] = some (1, 5, [6, 6]) :=
  ⟨by decide, convergence_first_repeat 5 6 (by decide)⟩

/-- The invariant the machine maintains: `captured` is never set (the
source only reads it), and once anything has been seen a previous distinct
value has been recorded. -/
def GoodState (s : StreamState) : Prop :=
  s.captured = false ∧ (s.seen = [] ∨ s.havePrev = true)

theorem initStreamState_good : GoodState initStreamState :=
  ⟨rfl, Or.inl rfl⟩

theorem locRefStep_good {s : StreamState} (hs : GoodState s) (u : Nat) :
    (∀ s1, locRefStep s u = StepResult.cont s1 → GoodState s1) ∧
      (∀ br bits, locRefStep s u = StepResult.settled br bits → br = 1) := by
  obtain ⟨hcap, hseen⟩ := hs
  by_cases hmem : s.seen.contains u
  · have hne : s.seen ≠ [] := by
      intro hnil
      rw [hnil] at hmem
      simp [List.contains] at hmem
    have hprev : s.havePrev = true := hseen.resolve_left hne
    constructor
    · intro s1 hcont
      rw [locRefStep, if_pos hmem] at hcont
      simp [hcap, hprev] at hcont
    · intro br bits hset
      rw [locRefStep, if_pos hmem] at hset
      simp [hcap, hprev] at hset
      exact hset.1.symm
  · constructor
    · intro s1 hcont
      rw [locRefStep, if_neg hmem] at hcont
      cases hcont
      exact ⟨hcap, Or.inr rfl⟩
    · intro br bits hset
      rw [locRefStep, if_neg hmem] at hset
      cases hset

theorem locRefRun_good : ∀ (stream : List Nat) (s : StreamState), GoodState s →
    ∀ br bits rest, locRefRun s stream = some (br, bits, rest) → br = 1 := by
  intro stream
  induction stream with
  | nil =>
    intro s _ br bits rest h
    cases h
  | cons u tail ih =>
    intro s hs br bits rest h
    rw [locRefRun] at h
    cases hstep : locRefStep s u with
    | settled br1 bits1 =>
      rw [hstep] at h
      have hbr : br = br1 := (congrArg (fun t => t.1) (Option.some.inj h)).symm
      rw [hbr]
      exact (locRefStep_good hs u).2 br1 bits1 hstep
    | cont s1 =>
      rw [hstep] at h
      exact ih s1 ((locRefStep_good hs u).1 s1 hstep) br bits rest h

/-- C7: the machine never settles through the two-repeats branch.  Starting
from the zero-value state, the very first observation of a round is
necessarily a new pattern and records a previous distinct value, so any
later repeat fires the first-repeat branch (branch 1) at once; whenever a
run of `listenOneMotorRound`'s loop settles, it settled on branch 1. -/
theorem two_repeat_branch_unreachable (stream : List Nat) (br bits : Nat)
    (rest : List Nat) (h : locRefRun initStreamState stream = some (br, bits, rest)) :
    br = 1 :=
  locRefRun_good stream initStreamState initStreamState_good br bits rest h

/-- Unreachability witness: a settling run (`[5, 5]`) settles on branch 1. -/
theorem two_repeat_branch_unreachable_witness :
    locRefRun initStreamState [5, 5] = some (1, 5, []) ∧ (1 : Nat) = 1 :=
  ⟨by decide, two_repeat_branch_unreachable [5, 5] 1 5 [] (by decide)⟩

/-! ## Feedback acquisition (`listenOneMotorRound`, `QueryCurrentAngles`)

A polled message is its list of payload byte values (the Go code parses
two-digit hex tokens into bytes first; `parseHexByte` failures yield byte
0, so the byte list is the faithful post-parse view).  Messages shorter
than 8 bytes are skipped, and only messages whose decoded index is
`loc_ref` reach the convergence machine. -/

/-- Feed one polled message through the body of the message loop in
`listenOneMotorRound`: skip short frames, decode, and apply the repeat
logic only to `loc_ref` observations. -/
def processMessage (s : StreamState) (msg : List Nat) : StepResult :=
  if msg.length < 8 then
    StepResult.cont s
  else if decodeIndex msg = idxLocRef then
    locRefStep s (decodeValueBits msg)
  else
    StepResult.cont s

/-- The poll loop over the messages observed before the deadline; `some`
carries the settled bit pattern, `none` models deadline expiry. -/
def listenLoop : StreamState → List (List Nat) → Option Nat
  | _, [] => none
  | s, msg :: rest =>
    match processMessage s msg with
    | StepResult.settled _ bits => some bits
    | StepResult.cont s1 => listenLoop s1 rest

/-- Go `listenOneMotorRound` as a function of the observed message stream:
`(true, settled bits)` on convergence, the Go zero-value return
`(false, 0)` on deadline expiry. -/
def listenOneMotorRound (msgs : List (List Nat)) : Bool × Nat :=
  match listenLoop initStreamState msgs with
  | some bits => (true, bits)
  | none => (false, 0)

/-- Go `QueryCurrentAngles`, angles part.  `sendOk m` abstracts whether the
four read-request posts of `sendReadForMotor` for motor `m` all succeed at
the transport (the Go code aborts with an error on the first failed
post, before any listening); `streams m` is the message stream motor `m`'s
listen round observes within its budget.  Parameter listening
(`listenMotorParams`) fills a separate map and cannot fail, so it is
omitted here; the returned list is the `angles` map, one entry per motor
whose round settled. -/
def queryCurrentAngles (sendOk : Nat → Bool) (streams : Nat → List (List Nat))
    (motorIDs : List Nat) : Except String (List (Nat × Nat)) :=
  if motorIDs.all sendOk then
    Except.ok (motorIDs.filterMap fun m =>
      match listenOneMotorRound (streams m) with
      | (true, bits) => some (m, bits)
      | (false, _) => none)
  else
    Except.error "send read request failed"

/-- C8: when the read requests go out, the query always reports success,
and its angle map has exactly one entry per motor whose listen round
settled within budget — an entry `(m, bits)` exists iff motor `m` settled,
with its settled value — and no entry for any motor that timed out.
Motors that fail to settle shrink the result instead of failing the call. -/
theorem partial_feedback_success (sendOk : Nat → Bool)
    (streams : Nat → List (List Nat)) :
    ∀ motorIDs : List Nat, (∀ m ∈ motorIDs, sendOk m = true) →
      ∃ angles, queryCurrentAngles sendOk streams motorIDs = Except.ok angles ∧
        angles.length
          = (motorIDs.filter fun m => (listenOneMotorRound (streams m)).1).length ∧
        (∀ m bits, (m, bits) ∈ angles →
          m ∈ motorIDs ∧ listenOneMotorRound (streams m) = (true, bits)) ∧
        (∀ m ∈ motorIDs, (listenOneMotorRound (streams m)).1 = true →
          (m, (listenOneMotorRound (streams m)).2) ∈ angles) := by
  intro motorIDs hsend
  have hall : motorIDs.all sendOk = true := by
    rw [List.all_eq_true]
    intro m hm
    exact hsend m hm
  refine ⟨_, by rw [queryCurrentAngles, if_pos hall], ?_, ?_, ?_⟩
  · clear hsend hall
    induction motorIDs with
    | nil => rfl
    | cons m tail ih =>
      cases hrun : listenOneMotorRound (streams m) with
      | mk ok bits =>
        cases ok with
        | true =>
          simp [List.filterMap_cons, List.filter_cons, hrun, ih]
        | false =>
          simp [List.filterMap_cons, List.filter_cons, hrun, ih]
  · clear hsend hall
    induction motorIDs with
    | nil =>
      intro m bits hmem
      cases hmem
    | cons m0 tail ih =>
      intro m bits hmem
      rw [List.filterMap_cons] at hmem
      cases hrun : listenOneMotorRound (streams m0) with
      | mk ok bits0 =>
        cases ok with
        | true =>
          rw [hrun] at hmem
          rcases List.mem_cons.mp hmem with heq | htail
          · obtain ⟨h1, h2⟩ := Prod.mk.injEq .. ▸ congrArg id heq
            exact ⟨by rw [h1]; exact List.mem_cons_self .., by rw [h1, h2, hrun]⟩
          · obtain ⟨hm, hl⟩ := ih m bits htail
            exact ⟨List.mem_cons_of_mem _ hm, hl⟩
        | false =>
          rw [hrun] at hmem
          obtain ⟨hm, hl⟩ := ih m bits hmem
          exact ⟨List.mem_cons_of_mem _ hm, hl⟩
  · clear hsend hall
    induction motorIDs with
    | nil =>
      intro m hm
      cases hm
    | cons m0 tail ih =>
      intro m hm hsettled
      rw [List.filterMap_cons]
      rcases List.mem_cons.mp hm with heq | htail
      · subst heq
        cases hrun : listenOneMotorRound (streams m) with
        | mk ok bits0 =>
          cases ok with
          | true =>
            exact List.mem_cons_self ..
          | false =>
            rw [hrun] at hsettled
            cases hsettled
      · cases hrun : listenOneMotorRound (streams m0) with
        | mk ok bits0 =>
          cases ok with
          | true =>
            exact List.mem_cons_of_mem _ (ih m htail hsettled)
          | false =>
            exact ih m htail hsettled

/-- Concrete transport for the partial-feedback witness: every send
succeeds. -/
def wSendOk : Nat → Bool := fun _ => true

/-- Concrete streams for the partial-feedback witness: motors 51 and 52
observe a repeated `loc_ref` message and settle; the other five observe
nothing before their deadline. -/
def wStreams : Nat → List (List Nat) := fun m =>
  if m = 51 ∨ m = 52 then
    [encodePayload idxLocRef 5, encodePayload idxLocRef 5]
  else
    []

/-- The seven right-arm motor ids. -/
def wMotors : List Nat := [51, 52, 53, 54, 55, 56, 57]

/-- Partial-feedback witness: 2 of 7 motors settle, the query succeeds
with exactly 2 entries. -/
theorem partial_feedback_success_witness :
    (∀ m ∈ wMotors, wSendOk m = true) ∧
      (wMotors.filter fun m => (listenOneMotorRound (wStreams m)).1).length = 2 ∧
      (∃ angles, queryCurrentAngles wSendOk wStreams wMotors = Except.ok angles ∧
        angles.length
          = (wMotors.filter fun m => (listenOneMotorRound (wStreams m)).1).length ∧
        (∀ m bits, (m, bits) ∈ angles →
          m ∈ wMotors ∧ listenOneMotorRound (wStreams m) = (true, bits)) ∧
        (∀ m ∈ wMotors, (listenOneMotorRound (wStreams m)).1 = true →
          (m, (listenOneMotorRound (wStreams m)).2) ∈ angles)) :=
  ⟨by decide, by decide, partial_feedback_success wSendOk wStreams wMotors (by decide)⟩

/-! ## Sequence Transform Engine (`mergeSequencesHandler`, part_000)

Way-point angle values are Go `float32` literals that the handler only
constructs, negates and copies (never adds or rounds), so they are
modelled exactly as rationals: the source literal `0.1` becomes `1/10`
and the `new`-generation sign flip is exact rational negation. -/

/-- One way-point (`JointAngleSet` in the source): a name and a
motor-id → angle map, modelled as an association list in the literal's
key order. -/
structure JointAngleSet where
  name : String
  values : List (String × ℚ)
deriving DecidableEq

/-- Go `Angle2set62`, the left-side offset for joint "62": `0.1`, negated for
the `"new"` arm generation. -/
def angle2set62 (armModel : String) : ℚ :=
  if armModel = "new" then -(1 / 10) else 1 / 10

/-- The synthetic initial way-point prepended on the left side
(`leftInitAngle` in the source): joints 61-67 all zero except joint 62 at
the generation-dependent offset. -/
def leftInitAngleSet (armModel : String) : JointAngleSet :=
  ⟨"初始角度",
    [("61", 0), ("62", angle2set62 armModel), ("63", 0), ("64", 0), ("65", 0),
      ("66", 0), ("67", 0)]⟩

/-- Up-merge, left side: prepend the synthetic initial way-point
(`append([]JointAngleSet{leftInitAngle}, leftSeq.Angles...)`). -/
def upMergeLeftAngles (armModel : String) (angles : List JointAngleSet) :
    List JointAngleSet :=
  leftInitAngleSet armModel :: angles

/-- The down-derivation applied to a side's way-point list: when more than
one way-point exists, drop the last and reverse the remainder (the
`leftAnglesWithoutLast` / explicit reversal loop in the source, used
identically by the auto-derived and the direct down branches). -/
def reverseDropLast (angles : List JointAngleSet) : List JointAngleSet :=
  if angles.length > 1 then angles.dropLast.reverse else angles

/-- C3: an up-merge of left way-points `[p1, p2, p3]` under generation
`"old"` produces the up sequence `[init, p1, p2, p3]`, where `init` puts
joint 62 at `+0.1` and every other designated joint at `0`; the
auto-derived descending left sequence drops the last way-point of the up
sequence and reverses the remainder, giving `[p2, p1, init]`. -/
theorem mirror_derivation (p1 p2 p3 : JointAngleSet) :
    upMergeLeftAngles "old" [p1, p2, p3]
        = ⟨"初始角度",
            [("61", 0), ("62", 1 / 10), ("63", 0), ("64", 0), ("65", 0),
              ("66", 0), ("67", 0)]⟩ :: [p1, p2, p3] ∧
      reverseDropLast (upMergeLeftAngles "old" [p1, p2, p3])
        = [p2, p1,
            ⟨"初始角度",
              [("61", 0), ("62", 1 / 10), ("63", 0), ("64", 0), ("65", 0),
                ("66", 0), ("67", 0)]⟩] := by
  have hmod : angle2set62 "old" = 1 / 10 := by
    rw [angle2set62, if_neg (by decide)]
  constructor
  · rw [upMergeLeftAngles, leftInitAngleSet, hmod]
  · rw [reverseDropLast,
      if_pos (show (upMergeLeftAngles "old" [p1, p2, p3]).length > 1 by
        simp [upMergeLeftAngles])]
    rw [upMergeLeftAngles, leftInitAngleSet, hmod]
    simp [List.dropLast]

/-! ## Name substitution and file names (`mergeSequencesHandler`,
`saveMergedSequence`)

Go `strings.Replace(s, old, new, -1)` (and its alias
`strings.ReplaceAll`) substitutes every non-overlapping occurrence of
`old`, scanning left to right.  The scan consumes at least one character
per step for the non-empty patterns used here, so a fuel of `s.length`
reproduces it exactly. -/

/-- Does `pat` occur at the head of `s`? (Go `strings.HasPrefix`, used by
`strings.Replace` to locate occurrences.) -/
def startsWith : List Char → List Char → Bool
  | [], _ => true
  | _ :: _, [] => false
  | p :: ps, c :: cs => p == c && startsWith ps cs

/-- Left-to-right non-overlapping replacement with explicit fuel; at a
match, emit the replacement and skip the matched pattern, otherwise copy
one character. -/
def replaceGo (old rep : List Char) : Nat → List Char → List Char
  | _, [] => []
  | 0, s => s
  | fuel + 1, c :: rest =>
    if startsWith old (c :: rest) then
      rep ++ replaceGo old rep fuel ((c :: rest).drop old.length)
    else
      c :: replaceGo old rep fuel rest

/-- Go `strings.Replace(s, old, rep, -1)` for the non-empty patterns below. -/
def stringsReplace (s old rep : String) : String :=
  String.mk (replaceGo old.data rep.data s.data.length s.data)

/-- The derived descending name (`downName` in the source): replace every
`"up"` by `"down"`, then every `"Up"` by `"down"`, then every `"UP"` by
`"DOWN"`. -/
def downNameOf (mergedName : String) : String :=
  stringsReplace (stringsReplace (stringsReplace mergedName "up" "down") "Up" "down")
    "UP" "DOWN"

/-- The file-safe name used by `saveMergedSequence`: replace every space,
forward slash and backslash by an underscore. -/
def sanitizeFileName (mergedName : String) : String :=
  stringsReplace (stringsReplace (stringsReplace mergedName " " "_") "/" "_")
    "\x5c" "_"

/-- C6: the descending name is obtained by single-case token substitution:
`"UP_to_rest"` (UPPER token) becomes `"DOWN_to_rest"`, while `"Up_slow"`
(Title token) becomes `"down_slow"` — the Title-case token maps to a
lower-case replacement. -/
theorem down_name_substitution :
    downNameOf "UP_to_rest" = "DOWN_to_rest" ∧ downNameOf "Up_slow" = "down_slow" := by
  constructor <;> rfl

/-- Single-character replacement is a pointwise map when the fuel covers
the string. -/
theorem replaceGo_single (c r : Char) :
    ∀ (s : List Char) (fuel : Nat), s.length ≤ fuel →
      replaceGo [c] [r] fuel s = s.map fun a => if a = c then r else a := by
  intro s
  induction s with
  | nil =>
    intro fuel _
    cases fuel <;> rfl
  | cons a rest ih =>
    intro fuel hfuel
    cases fuel with
    | zero =>
      exact absurd hfuel (by simp)
    | succ f =>
      have hrest : rest.length ≤ f := by
        simp only [List.length_cons] at hfuel
        omega
      have ihf := ih f hrest
      by_cases hac : c = a
      · subst hac
        simp [replaceGo, startsWith, ihf]
      · simp [replaceGo, startsWith, hac, Ne.symm hac, ihf]

/-- Composing the three sanitizing single-character maps is a single map. -/
theorem sanitize_map_fuse (l : List Char) :
    ((l.map fun a => if a = ' ' then '_' else a).map fun a =>
        if a = '/' then '_' else a).map (fun a => if a = '\x5c' then '_' else a)
      = l.map fun c => if c = ' ' ∨ c = '/' ∨ c = '\x5c' then '_' else c := by
  induction l with
  | nil => rfl
  | cons a rest ih =>
    simp only [List.map_cons, ih, List.cons.injEq, and_true]
    by_cases h1 : a = ' '
    · simp [h1]
    · by_cases h2 : a = '/'
      · simp [h1, h2]
      · by_cases h3 : a = '\x5c'
        · simp [h1, h2, h3]
        · simp [h1, h2, h3]

/-- C9 counterexample: the claim fails at the merged name `"a-b"` — the
dash is not alphanumeric, yet `saveMergedSequence` leaves it in place
instead of replacing it with an underscore. -/
theorem sanitize_not_alphanumeric_map :
    sanitizeFileName "a-b"
      ≠ String.mk (("a-b" : String).data.map fun c => if c.isAlphanum then c else '_') := by
  decide

/-- C9 amended: the file name is deterministic and is obtained from the
merged name by replacing every space, forward slash and backslash with an
underscore; all other characters — including other non-alphanumerics —
are preserved verbatim. -/
theorem sanitize_replaces_space_and_slashes (name : String) :
    sanitizeFileName name
      = String.mk (name.data.map fun c =>
          if c = ' ' ∨ c = '/' ∨ c = '\x5c' then '_' else c) := by
  have e1 : stringsReplace name " " "_"
      = String.mk (name.data.map fun a => if a = ' ' then '_' else a) :=
    congrArg String.mk (replaceGo_single ' ' '_' name.data name.data.length (Nat.le_refl _))
  have e2 : stringsReplace (String.mk (name.data.map fun a => if a = ' ' then '_' else a))
        "/" "_"
      = String.mk ((name.data.map fun a => if a = ' ' then '_' else a).map fun a =>
          if a = '/' then '_' else a) :=
    congrArg String.mk (replaceGo_single '/' '_' _ _ (Nat.le_refl _))
  have e3 : stringsReplace (String.mk ((name.data.map fun a => if a = ' ' then '_' else a).map
          fun a => if a = '/' then '_' else a)) "\x5c" "_"
      = String.mk (((name.data.map fun a => if a = ' ' then '_' else a).map fun a =>
          if a = '/' then '_' else a).map fun a => if a = '\x5c' then '_' else a) :=
    congrArg String.mk (replaceGo_single '\x5c' '_' _ _ (Nat.le_refl _))
  rw [sanitizeFileName, e1, e2, e3, sanitize_map_fuse]
